import Mathlib

/-!
Formal model of the passphrase generation pipeline in pass_gen.py.

Strings are modelled as lists of characters.  Randomness is modelled by
passing the outcomes of the random draws as explicit parameters: a draw of
a random element of a list becomes a natural number index, a draw of a
random position becomes a natural number.  File contents are passed in as
lists of lines, and the file system and network are modelled by an
environment record of booleans and contents.
-/

namespace PassGen

/-- The six ASCII whitespace characters stripped by the Python str.strip
method (space, tab, newline, carriage return, vertical tab, form feed). -/
def isPyWs (c : Char) : Bool :=
  decide (c.toNat = 32 ∨ c.toNat = 9 ∨ c.toNat = 10 ∨ c.toNat = 13 ∨
          c.toNat = 11 ∨ c.toNat = 12)

/-- Membership of the character class a-z of the regular expressions in
is_reasonable_word. -/
def isLowerAZ (c : Char) : Bool :=
  decide (97 ≤ c.toNat ∧ c.toNat ≤ 122)

/-- Membership of the character class A-Z. -/
def isUpperAZ (c : Char) : Bool :=
  decide (65 ≤ c.toNat ∧ c.toNat ≤ 90)

/-- The apostrophe character, code point 39. -/
def apos : Char := Char.ofNat 39

/-- Model of the Python str.strip method: remove leading and trailing
whitespace. -/
def pyStrip (l : List Char) : List Char :=
  ((l.dropWhile isPyWs).reverse.dropWhile isPyWs).reverse

/-- Model of the Python str.lower method. -/
def pyLower (l : List Char) : List Char := l.map Char.toLower

/-- The regular expression fullmatch for the pattern of one or more
lowercase letters, used by is_reasonable_word when apostrophes are not
allowed. -/
def matchLower (w : List Char) : Bool :=
  !w.isEmpty && w.all isLowerAZ

/-- The regular expression fullmatch for one or more lowercase letters
optionally followed by an apostrophe and one or more lowercase letters,
used by is_reasonable_word when apostrophes are allowed. -/
def matchLowerApos (w : List Char) : Bool :=
  let head := w.takeWhile isLowerAZ
  let rest := w.dropWhile isLowerAZ
  !head.isEmpty &&
    (rest.isEmpty ||
      (match rest with
       | c :: cs => c == apos && matchLower cs
       | [] => false))

/-- Model of is_reasonable_word from pass_gen.py: strip the word, reject
the empty word and words outside the length bounds, then check the
character class rule. -/
def is_reasonable_word (word : List Char) (min_len max_len : Int)
    (allow_apostrophe : Bool) : Bool :=
  let w := pyStrip word
  if w.isEmpty then false
  else if (w.length : Int) < min_len ∨ max_len < (w.length : Int) then false
  else if allow_apostrophe then matchLowerApos w else matchLower w

/-- The candidate words of load_words_from_file before the deduplication
step: every line stripped and lowercased, kept exactly when
is_reasonable_word accepts it. -/
def loadCandidates (lines : List (List Char)) (min_len max_len : Int)
    (allow_apostrophe : Bool) : List (List Char) :=
  (lines.map (fun line => pyLower (pyStrip line))).filter
    (fun w => is_reasonable_word w min_len max_len allow_apostrophe)

/-- The deduplication loop of load_words_from_file: a seen set guards
against duplicates while the output keeps insertion order.  The seen set
is modelled as the list of words already inserted. -/
def dedupAux (seen : List (List Char)) : List (List Char) → List (List Char)
  | [] => []
  | w :: ws =>
    if w ∈ seen then dedupAux seen ws else w :: dedupAux (w :: seen) ws

/-- Deduplication keeping first occurrences, starting from an empty seen
set.  This also models dict.fromkeys as used by parse_eff_wordlist. -/
def dedupFirst (ws : List (List Char)) : List (List Char) := dedupAux [] ws

/-- Model of load_words_from_file from pass_gen.py, taking the lines of
the file as input: normalize and filter every line, then deduplicate
preserving order. -/
def load_words_from_file (lines : List (List Char)) (min_len max_len : Int)
    (allow_apostrophe : Bool) : List (List Char) :=
  dedupFirst (loadCandidates lines min_len max_len allow_apostrophe)

/-- Python str.split with no argument: split on whitespace and drop the
empty fields produced by runs of whitespace. -/
def wsplit (l : List Char) : List (List Char) :=
  (l.splitOnP isPyWs).filter (fun w => !w.isEmpty)

/-- The candidate words of parse_eff_wordlist before deduplication: for
every line, strip it, skip it when empty or when it has fewer than two
fields, otherwise take the second field, strip and lowercase it, and keep
it when is_reasonable_word accepts it. -/
def effCandidates (lines : List (List Char)) (min_len max_len : Int)
    (allow_apostrophe : Bool) : List (List Char) :=
  lines.filterMap (fun line =>
    let l := pyStrip line
    if l.isEmpty then none
    else
      match wsplit l with
      | _ :: w2 :: _ =>
        let w := pyLower (pyStrip w2)
        if is_reasonable_word w min_len max_len allow_apostrophe then some w
        else none
      | _ => none)

/-- Model of parse_eff_wordlist from pass_gen.py, taking the lines of the
EFF file as input. -/
def parse_eff_wordlist (lines : List (List Char)) (min_len max_len : Int)
    (allow_apostrophe : Bool) : List (List Char) :=
  dedupFirst (effCandidates lines min_len max_len allow_apostrophe)

/-- Index of the first occurrence of x in a word list (length of the list
when x does not occur). -/
def firstIdx (x : List Char) : List (List Char) → Nat
  | [] => 0
  | w :: ws => if w = x then 0 else firstIdx x ws + 1

/-- Python list join with a separator: the words joined by the separator
string, as in the return statement of generate_passphrase. -/
def joinSep (sep : List Char) : List (List Char) -> List Char
  | [] => []
  | [w] => w
  | a :: b :: ws => a ++ sep ++ joinSep sep (b :: ws)

/-- Model of the Python str.capitalize method: first character uppercased,
every following character lowercased. -/
def pyCapitalize (w : List Char) : List Char :=
  match w with
  | [] => []
  | c :: cs => Char.toUpper c :: cs.map Char.toLower

/-- The list named chosen inside generate_passphrase: the words drawn from
the word list (the random draws are passed in as the list of drawn
indices), after the optional titlecase transform, which capitalizes the
word at the randomly drawn index tIdx. -/
def chosenWords (words : List (List Char)) (draws : List Nat) (tIdx : Nat)
    (titlecase : Bool) : List (List Char) :=
  let chosen := draws.map (fun i => words.getD i [])
  if titlecase then chosen.set tIdx (pyCapitalize (chosen.getD tIdx []))
  else chosen

/-- Model of generate_passphrase from pass_gen.py.  The n_words random
word draws appear as the index list draws, and the secrets.randbelow draw
of the titlecase position appears as tIdx. -/
def generate_passphrase (words : List (List Char)) (draws : List Nat)
    (tIdx : Nat) (separator : List Char) (titlecase : Bool) : List Char :=
  joinSep separator (chosenWords words draws tIdx titlecase)

/-- Model of choose_separator from pass_gen.py: a fixed separator wins, an
empty separator set falls back to a hyphen, otherwise the random draw
(modelled by the index k, reduced modulo the set size) picks one character
of the set. -/
def choose_separator (sep : Option (List Char)) (sep_set : List Char)
    (k : Nat) : List Char :=
  match sep with
  | some s => s
  | none =>
    if sep_set.isEmpty then ['-']
    else [sep_set.getD (k % sep_set.length) '-']

/-- Does the pattern start the list?  Helper of the substring search used
to model the Python str.split method. -/
def leadsWith : List Char -> List Char -> Bool
  | [], _ => true
  | _ :: _, [] => false
  | p :: ps, c :: cs => p == c && leadsWith ps cs

/-- Index of the leftmost occurrence of a nonempty pattern, as used by the
Python substring search underlying str.split. -/
def findSub (pat : List Char) : List Char -> Option Nat
  | [] => none
  | c :: cs =>
    if leadsWith pat (c :: cs) then some 0
    else (findSub pat cs).map (fun i => i + 1)

/-- One pass of the Python str.split method on a nonempty separator,
consuming fuel: cut at the leftmost separator occurrence and continue to
the right of it. -/
def splitAux (sep : List Char) : Nat -> List Char -> List (List Char)
  | 0, s => [s]
  | fuel + 1, s =>
    match findSub sep s with
    | none => [s]
    | some i => s.take i :: splitAux sep fuel (s.drop (i + sep.length))

/-- Model of the Python str.split method with a nonempty separator
string.  The fuel s.length + 1 is enough because every cut consumes at
least one character of the remainder. -/
def pySplit (sep s : List Char) : List (List Char) :=
  splitAux sep (s.length + 1) s

/-- Model of the Python substring containment test (sep in word). -/
def containsSub (pat s : List Char) : Bool := (findSub pat s).isSome

/-- Is the word entirely uppercase letters (and nonempty)? -/
def isAllUpper (w : List Char) : Bool := !w.isEmpty && w.all isUpperAZ

/-- The built-in fallback word list FALLBACK_WORDS of pass_gen.py. -/
def FALLBACK_WORDS : List (List Char) := List.map String.toList [
  "abacus", "abandon", "ability", "abrupt", "academy", "acorn", "across",
  "action", "active", "adapt", "admire", "advice", "airport", "almond",
  "anchor", "ancient", "angle", "animal", "ankle", "answer", "anthem",
  "anyone", "apricot", "arcade", "arctic", "artist", "atom", "audit",
  "autumn", "avenue", "bacon", "badge", "balance", "banner", "barrel",
  "basic", "battery", "beacon", "beauty", "begin", "belong", "bicycle",
  "bitter", "blanket", "blossom", "border", "borrow", "bracket", "breeze",
  "bronze", "cabin", "cactus", "camera", "canyon", "captain", "carbon",
  "carpet", "castle", "causal", "cedar", "celery", "cement", "chance",
  "chapter", "cherry", "circle", "civic", "climate", "coast", "coffee",
  "comet", "common", "concert", "copper", "coral", "cotton", "council",
  "cousin", "cradle", "craft", "credit", "creek", "crimson", "crisp",
  "critic", "cosmic", "custom", "dance", "decade", "decide", "demand",
  "desert", "design", "detail", "device", "dinner", "direct", "district",
  "dragon", "drift", "during", "eager", "earthly", "echo", "eclipse",
  "editor", "effect", "effort", "eight", "either", "elbow", "elder", "elect",
  "ember", "emerge", "emotion", "employ", "enable", "engine", "enough",
  "enjoy", "enrich", "escape", "estate", "ethics", "evening", "exact",
  "exile", "exist", "expand", "expert", "expose", "fabric", "falcon",
  "family", "famous", "fancy", "federal", "ferry", "fever", "fiction",
  "filter", "final", "finish", "fiscal", "flame", "forest", "fossil", "frame",
  "frequent", "friendly", "galaxy", "garden", "garment", "gentle", "glacier",
  "golden", "gravity", "habitat", "harbor", "hazard", "hero", "hidden",
  "honest", "horizon", "humble", "hybrid", "idea", "ignore", "image",
  "impact", "income", "index", "indoor", "infant", "inform", "inherit",
  "island", "jewel", "jungle", "kettle", "ladder", "lantern", "laptop",
  "legacy", "lemon", "liberty", "linen", "lion", "logic", "lunar", "magnet",
  "maple", "marble", "market", "meadow", "memory", "merit", "mimic",
  "mineral", "mirror", "mobile", "moment", "monarch", "monitor", "mosaic",
  "mountain", "museum", "nation", "nectar", "neutral", "nickel", "normal",
  "notice", "object", "orbit", "origin", "output", "oxygen", "palace",
  "panel", "parent", "patient", "percent", "phoenix", "picnic", "pioneer",
  "pocket", "polar", "portal", "postage", "power", "prefer", "pressure",
  "problem", "process", "profit", "public", "quiet", "radar", "radius",
  "random", "raven", "ready", "reason", "record", "reform", "report",
  "rhythm", "ribbon", "river", "robust", "rocket", "romance", "routine",
  "rural", "salad", "salmon", "satellite", "science", "secret", "senior",
  "shadow", "signal", "silver", "simple", "sister", "slate", "solar", "solid",
  "summit", "symbol", "system", "talent", "temple", "theory", "thunder",
  "timber", "token", "topic", "travel", "treaty", "tunnel", "uniform",
  "update", "useful", "vacuum", "velvet", "vendor", "verdict", "vessel",
  "veteran", "violet", "vision", "vivid", "wagon", "walnut", "window",
  "winter", "wisdom", "wonder", "woven", "yellow", "zenith"]

/-- The command line configuration of main in pass_gen.py.  Numeric
arguments are Python ints and are modelled as integers. -/
structure Config where
  words : Int
  count : Int
  sep : Option (List Char)
  sep_set : List Char
  wordlist : Option (List Char)
  download_eff : Bool
  min_len : Int
  max_len : Int
  allow_apostrophe : Bool
  titlecase : Bool

/-- The file system and network environment seen by one run of main:
whether the explicitly supplied wordlist path exists and its lines, the
contents of the two conventional system dictionaries when they exist,
whether the EFF cache file exists, whether an EFF download would succeed,
and the lines of the EFF file that ends up being parsed. -/
structure Env where
  wordlistFileExists : Bool
  wordlistLines : List (List Char)
  sysdict1 : Option (List (List Char))
  sysdict2 : Option (List (List Char))
  effCached : Bool
  effFetchOk : Bool
  effLines : List (List Char)

/-- Model of find_default_wordlist: the first existing file among the two
conventional dictionary paths, as the lines of that file. -/
def find_default_wordlist (env : Env) : Option (List (List Char)) :=
  match env.sysdict1 with
  | some ls => some ls
  | none => env.sysdict2

/-- The four word sources of the source resolver. -/
inductive Source where
  | eff
  | file
  | sysdict
  | fallback
deriving DecidableEq, Repr

/-- The Python truthiness test (if args.wordlist:) applied to the optional
wordlist path: an empty string is falsy. -/
def wordlistTruthy (wl : Option (List Char)) : Bool :=
  match wl with
  | some w => !w.isEmpty
  | none => false

/-- Which source the word resolution code of main draws raw candidate
words from, following the branch structure of main: the download-eff
branch is tested first, then the explicit wordlist path, then the system
dictionaries, and the fallback list last. -/
def resolveSource (cfg : Config) (env : Env) : Source :=
  if cfg.download_eff then Source.eff
  else if wordlistTruthy cfg.wordlist then Source.file
  else if (find_default_wordlist env).isSome then Source.sysdict
  else Source.fallback

/-- The two failure modes of word resolution: the EFF download raising (an
uncaught network error, process exit code 1) and the explicitly supplied
wordlist file missing (diagnostic and return code 2). -/
inductive ResolveErr where
  | fetchFailed
  | fileNotFound
deriving DecidableEq, Repr

/-- The diagnostic stream messages of pass_gen.py, abstracted. -/
inductive Msg where
  | errWords
  | errCount
  | errLen
  | downloading
  | downloadComplete
  | netTraceback
  | errWordlistNotFound
  | warnSmall (n : Nat)
  | errNoWords
deriving DecidableEq, Repr

/-- The word resolution part of main: produce the filtered word list (or a
failure), together with the diagnostic messages it prints.  Mirrors the
source: the download-eff branch first (using the cache when it exists,
downloading otherwise), then the explicit wordlist path (error when
missing), then the first existing system dictionary, then the built-in
fallback list filtered in place. -/
def resolveWords (cfg : Config) (env : Env) :
    Except ResolveErr (List (List Char)) × List Msg :=
  if cfg.download_eff then
    if env.effCached then
      (Except.ok (parse_eff_wordlist env.effLines cfg.min_len cfg.max_len
        cfg.allow_apostrophe), [])
    else if env.effFetchOk then
      (Except.ok (parse_eff_wordlist env.effLines cfg.min_len cfg.max_len
        cfg.allow_apostrophe), [Msg.downloading, Msg.downloadComplete])
    else (Except.error ResolveErr.fetchFailed, [Msg.downloading])
  else if wordlistTruthy cfg.wordlist then
    if env.wordlistFileExists then
      (Except.ok (load_words_from_file env.wordlistLines cfg.min_len
        cfg.max_len cfg.allow_apostrophe), [])
    else (Except.error ResolveErr.fileNotFound, [])
  else
    match find_default_wordlist env with
    | some ls =>
      (Except.ok (load_words_from_file ls cfg.min_len cfg.max_len
        cfg.allow_apostrophe), [])
    | none =>
      (Except.ok (FALLBACK_WORDS.filter (fun w =>
        is_reasonable_word w cfg.min_len cfg.max_len cfg.allow_apostrophe)),
        [])

/-- The word index draws of one generate_passphrase call inside the main
loop: one secrets.choice draw per word, modelled by the random stream rd
reduced modulo the word list size. -/
def genDraws (nWords : Nat) (wsLen : Nat) (rd : Nat -> Nat -> Nat)
    (i : Nat) : List Nat :=
  (List.range nWords).map (fun j => rd i j % wsLen)

/-- The observable result of one run of main: the process exit code, the
passphrases printed to standard output (one per line), and the messages
printed to the diagnostic stream. -/
structure MainRes where
  exit : Int
  out : List (List Char)
  err : List Msg
deriving DecidableEq, Repr

/-- Model of main from pass_gen.py.  The random streams rs, rd and rt
supply the separator draws, the word draws and the titlecase position
draws of the successive passphrases. -/
def mainRun (cfg : Config) (env : Env) (rs : Nat -> Nat)
    (rd : Nat -> Nat -> Nat) (rt : Nat -> Nat) : MainRes :=
  if cfg.words < 2 then ⟨2, [], [Msg.errWords]⟩
  else if cfg.count < 1 then ⟨2, [], [Msg.errCount]⟩
  else if cfg.min_len < 1 ∨ cfg.max_len < cfg.min_len then ⟨2, [], [Msg.errLen]⟩
  else
    match resolveWords cfg env with
    | (Except.error ResolveErr.fetchFailed, msgs) =>
      ⟨1, [], msgs ++ [Msg.netTraceback]⟩
    | (Except.error ResolveErr.fileNotFound, msgs) =>
      ⟨2, [], msgs ++ [Msg.errWordlistNotFound]⟩
    | (Except.ok ws, msgs) =>
      let warn : List Msg :=
        if ws.length < 1000 then [Msg.warnSmall ws.length] else []
      if ws.isEmpty then ⟨2, [], msgs ++ warn ++ [Msg.errNoWords]⟩
      else
        ⟨0,
          (List.range cfg.count.toNat).map (fun i =>
            generate_passphrase ws (genDraws cfg.words.toNat ws.length rd i)
              (rt i % cfg.words.toNat)
              (choose_separator cfg.sep cfg.sep_set (rs i)) cfg.titlecase),
          msgs ++ warn⟩

/-- The externally visible events of the EFF wordlist acquisition step of
main (lines 225 to 228 together with download_eff_wordlist): opening the
HTTP request, reading the whole response body, and writing the cache
file. -/
inductive EffEv where
  | rqOpen
  | rqRead
  | fileWrite
deriving DecidableEq, Repr

/-- Trace semantics of the EFF acquisition step: when a cached copy
exists nothing happens; otherwise one request is opened; if opening
fails the step fails with no further event; if reading the body fails the
step fails without writing; only after the whole body is read is the file
written.  The second component is success. -/
def effAcquireTrace (cached openOk readOk : Bool) : List EffEv × Bool :=
  if cached then ([], true)
  else if !openOk then ([EffEv.rqOpen], false)
  else if !readOk then ([EffEv.rqOpen, EffEv.rqRead], false)
  else ([EffEv.rqOpen, EffEv.rqRead, EffEv.fileWrite], true)

instance : DecidableEq (Except ResolveErr (List (List Char))) := fun a b =>
  match a, b with
  | Except.ok x, Except.ok y => decidable_of_iff (x = y) (by simp)
  | Except.error x, Except.error y => decidable_of_iff (x = y) (by simp)
  | Except.ok _, Except.error _ => isFalse (by simp)
  | Except.error _, Except.ok _ => isFalse (by simp)

/-- A configuration supplying both an explicit wordlist path and the
download option, used to settle the priority question of claim C5.
Fields: words, count, sep, sep_set, wordlist, download_eff, min_len,
max_len, allow_apostrophe, titlecase. -/
def c5cfg : Config :=
  ⟨4, 1, none, ['-'], some ['w', '.', 't', 'x', 't'], true, 4, 10, false, false⟩

/-- An environment where the explicit wordlist file exists with content
and the EFF cache also exists with content, used for claim C5.  Fields:
wordlistFileExists, wordlistLines, sysdict1, sysdict2, effCached,
effFetchOk, effLines. -/
def c5env : Env :=
  ⟨true, [['z', 'e', 'b', 'r', 'a', 's']], none, none, true, true,
    [['1', '1', '1', '1', '1', ' ', 'a', 'b', 'a', 'c', 'u', 's']]⟩

/-- A numerically valid configuration requesting the EFF download with no
explicit wordlist, for claim C7.  Fields: words, count, sep, sep_set,
wordlist, download_eff, min_len, max_len, allow_apostrophe, titlecase. -/
def c7cfg : Config := ⟨4, 1, none, ['-'], none, true, 4, 10, false, false⟩

/-- An environment with no EFF cache and an unreachable network, for
claim C7.  Fields: wordlistFileExists, wordlistLines, sysdict1, sysdict2,
effCached, effFetchOk, effLines. -/
def c7env : Env := ⟨false, [], none, none, false, false, []⟩

/-- A fully valid configuration reading a small explicit wordlist, for
the witness of claim C7. -/
def c7wcfg : Config :=
  ⟨2, 3, some ['-'], ['-'], some ['w'], false, 4, 10, false, false⟩

/-- An environment where the explicit wordlist file exists and holds one
usable word, for the witness of claim C7. -/
def c7wenv : Env :=
  ⟨true, [['a', 'p', 'p', 'l', 'e']], none, none, false, false, []⟩

/-- A fully valid configuration reading a small explicit wordlist, for
the witness of claim C8. -/
def c8cfg : Config :=
  ⟨2, 1, some ['-'], ['-'], some ['w'], false, 4, 10, false, false⟩

/-- An environment where the explicit wordlist file exists and holds one
usable word, for the witness of claim C8. -/
def c8env : Env :=
  ⟨true, [['a', 'p', 'p', 'l', 'e']], none, none, false, false, []⟩

theorem toLower_toNat (c : Char) :
    (Char.toLower c).toNat =
      if 65 ≤ c.toNat ∧ c.toNat ≤ 90 then c.toNat + 32 else c.toNat := by
  unfold Char.toLower
  split
  · rename_i h
    rw [if_pos h]
    have hv : (c.toNat + 32).isValidChar := Or.inl (by omega)
    rw [Char.ofNat, dif_pos hv]
    rfl
  · rename_i h
    rw [if_neg h]

theorem toUpper_toNat (c : Char) :
    (Char.toUpper c).toNat =
      if 97 ≤ c.toNat ∧ c.toNat ≤ 122 then c.toNat - 32 else c.toNat := by
  unfold Char.toUpper
  split
  · rename_i h
    rw [if_pos h]
    have hv : (c.toNat - 32).isValidChar := Or.inl (by omega)
    rw [Char.ofNat, dif_pos hv]
    rfl
  · rename_i h
    rw [if_neg h]

theorem isPyWs_toLower (c : Char) : isPyWs (Char.toLower c) = isPyWs c := by
  simp only [isPyWs, toLower_toNat]
  split
  · rename_i h
    rw [decide_eq_decide]
    omega
  · rfl

theorem head?_dropWhile_not {p : Char → Bool} :
    ∀ {l : List Char} {c : Char}, (l.dropWhile p).head? = some c → p c = false := by
  intro l
  induction l with
  | nil => intro c h; simp [List.dropWhile] at h
  | cons a l ih =>
    intro c h
    by_cases hp : p a
    · rw [List.dropWhile_cons, if_pos hp] at h
      exact ih h
    · rw [List.dropWhile_cons, if_neg hp] at h
      simp only [List.head?_cons, Option.some.injEq] at h
      rw [← h]
      exact Bool.of_not_eq_true hp

theorem dropWhile_split {p : Char → Bool} :
    ∀ l : List Char, ∃ t, l = t ++ l.dropWhile p := by
  intro l
  induction l with
  | nil => exact ⟨[], rfl⟩
  | cons a l ih =>
    by_cases hp : p a
    · obtain ⟨t, ht⟩ := ih
      refine ⟨a :: t, ?_⟩
      rw [List.dropWhile_cons, if_pos hp, List.cons_append, ← ht]
    · exact ⟨[], by rw [List.dropWhile_cons, if_neg hp, List.nil_append]⟩

theorem dropWhile_eq_self_of_head {p : Char → Bool} {l : List Char}
    (h : ∀ c, l.head? = some c → p c = false) : l.dropWhile p = l := by
  cases l with
  | nil => rfl
  | cons a l =>
    have := h a rfl
    rw [List.dropWhile_cons, if_neg (by simp [this])]

/-- A list with no leading and no trailing Python whitespace is a fixed
point of pyStrip. -/
theorem pyStrip_eq_self {l : List Char}
    (h1 : ∀ c, l.head? = some c → isPyWs c = false)
    (h2 : ∀ c, l.reverse.head? = some c → isPyWs c = false) :
    pyStrip l = l := by
  unfold pyStrip
  rw [dropWhile_eq_self_of_head h1, dropWhile_eq_self_of_head h2,
    List.reverse_reverse]

/-- The first character of a stripped list is not whitespace. -/
theorem pyStrip_head {l : List Char} {c : Char}
    (h : (pyStrip l).head? = some c) : isPyWs c = false := by
  unfold pyStrip at h
  set A := l.dropWhile isPyWs with hA
  set B := A.reverse.dropWhile isPyWs with hB
  obtain ⟨t, ht⟩ := @dropWhile_split isPyWs A.reverse
  rw [← hB] at ht
  cases hBr : B.reverse with
  | nil => rw [hBr] at h; simp at h
  | cons b u =>
    rw [hBr] at h
    simp only [List.head?_cons, Option.some.injEq] at h
    have hAeq : A = B.reverse ++ t.reverse := by
      have hr := congrArg List.reverse ht
      rwa [List.reverse_reverse, List.reverse_append] at hr
    have hAhead : A.head? = some b := by
      rw [hAeq, hBr]; rfl
    have hb : isPyWs b = false :=
      @head?_dropWhile_not isPyWs l b (by rw [← hA]; exact hAhead)
    rw [← h]
    exact hb

/-- The last character of a stripped list is not whitespace. -/
theorem pyStrip_last {l : List Char} {c : Char}
    (h : (pyStrip l).reverse.head? = some c) : isPyWs c = false := by
  unfold pyStrip at h
  rw [List.reverse_reverse] at h
  exact head?_dropWhile_not h

/-- Stripping then lowercasing a line yields a list that stripping leaves
unchanged: the inner strip inside is_reasonable_word is the identity on
the words stored by load_words_from_file. -/
theorem pyStrip_pyLower_pyStrip (l : List Char) :
    pyStrip (pyLower (pyStrip l)) = pyLower (pyStrip l) := by
  apply pyStrip_eq_self
  · intro c h
    unfold pyLower at h
    rw [List.head?_map] at h
    cases hh : (pyStrip l).head? with
    | none => rw [hh] at h; exact Option.noConfusion h
    | some d =>
      rw [hh] at h
      simp only [Option.map_some', Option.some.injEq] at h
      rw [← h, isPyWs_toLower]
      exact pyStrip_head hh
  · intro c h
    unfold pyLower at h
    rw [← List.map_reverse, List.head?_map] at h
    cases hh : (pyStrip l).reverse.head? with
    | none => rw [hh] at h; exact Option.noConfusion h
    | some d =>
      rw [hh] at h
      simp only [Option.map_some', Option.some.injEq] at h
      rw [← h, isPyWs_toLower]
      exact pyStrip_last hh

theorem mem_dedupAux :
    ∀ (ws seen : List (List Char)) (x : List Char),
      x ∈ dedupAux seen ws ↔ (x ∈ ws ∧ x ∉ seen) := by
  intro ws
  induction ws with
  | nil => intro seen x; simp [dedupAux]
  | cons w ws ih =>
    intro seen x
    by_cases hw : w ∈ seen
    · rw [dedupAux, if_pos hw, ih]
      constructor
      · rintro ⟨hx, hs⟩
        exact ⟨List.mem_cons_of_mem _ hx, hs⟩
      · rintro ⟨hx, hs⟩
        rcases List.mem_cons.mp hx with h | h
        · exact absurd (h ▸ hw) hs
        · exact ⟨h, hs⟩
    · rw [dedupAux, if_neg hw]
      constructor
      · intro hx
        rcases List.mem_cons.mp hx with h | h
        · exact ⟨h ▸ List.mem_cons_self w ws, h ▸ hw⟩
        · have := (ih (w :: seen) x).mp h
          exact ⟨List.mem_cons_of_mem _ this.1,
            fun hs => this.2 (List.mem_cons_of_mem _ hs)⟩
      · rintro ⟨hx, hs⟩
        by_cases hxw : x = w
        · exact hxw ▸ List.mem_cons_self w _
        · rcases List.mem_cons.mp hx with h | h
          · exact absurd h hxw
          · refine List.mem_cons_of_mem _ ((ih (w :: seen) x).mpr ⟨h, ?_⟩)
            intro hmem
            rcases List.mem_cons.mp hmem with h2 | h2
            · exact hxw h2
            · exact hs h2

theorem nodup_dedupAux :
    ∀ (ws seen : List (List Char)), (dedupAux seen ws).Nodup := by
  intro ws
  induction ws with
  | nil => intro seen; simp [dedupAux]
  | cons w ws ih =>
    intro seen
    by_cases hw : w ∈ seen
    · rw [dedupAux, if_pos hw]; exact ih seen
    · rw [dedupAux, if_neg hw]
      refine List.nodup_cons.mpr ⟨?_, ih (w :: seen)⟩
      intro hmem
      exact ((mem_dedupAux ws (w :: seen) w).mp hmem).2 (List.mem_cons_self w seen)

theorem pairwise_dedupAux :
    ∀ (ws seen : List (List Char)),
      (dedupAux seen ws).Pairwise (fun u v => firstIdx u ws < firstIdx v ws) := by
  intro ws
  induction ws with
  | nil => intro seen; simp [dedupAux]
  | cons w ws ih =>
    intro seen
    by_cases hw : w ∈ seen
    · rw [dedupAux, if_pos hw]
      refine List.Pairwise.imp_of_mem ?_ (ih seen)
      intro u v hu hv huv
      have hu' := (mem_dedupAux ws seen u).mp hu
      have hv' := (mem_dedupAux ws seen v).mp hv
      have huw : w ≠ u := fun he => hu'.2 (he ▸ hw)
      have hvw : w ≠ v := fun he => hv'.2 (he ▸ hw)
      simp only [firstIdx, if_neg huw, if_neg hvw]
      omega
    · rw [dedupAux, if_neg hw]
      rw [List.pairwise_cons]
      constructor
      · intro v hv
        have hv' := (mem_dedupAux ws (w :: seen) v).mp hv
        have hvw : w ≠ v := fun he => hv'.2 (he ▸ List.mem_cons_self w seen)
        simp only [firstIdx, if_neg hvw, if_true]
        omega
      · refine List.Pairwise.imp_of_mem ?_ (ih (w :: seen))
        intro u v hu hv huv
        have hu' := (mem_dedupAux ws (w :: seen) u).mp hu
        have hv' := (mem_dedupAux ws (w :: seen) v).mp hv
        have huw : w ≠ u := fun he => hu'.2 (he ▸ List.mem_cons_self w seen)
        have hvw : w ≠ v := fun he => hv'.2 (he ▸ List.mem_cons_self w seen)
        simp only [firstIdx, if_neg huw, if_neg hvw]
        omega

theorem findSub_single_none {c : Char} :
    ∀ {p : List Char}, c ∉ p → findSub [c] p = none := by
  intro p
  induction p with
  | nil => intro _; rfl
  | cons d ds ih =>
    intro h
    have hdc : ¬(c = d) := fun he => h (List.mem_cons.mpr (Or.inl he))
    have hl : ¬(leadsWith [c] (d :: ds) = true) := by
      simp only [leadsWith, Bool.and_eq_true, beq_iff_eq]
      rintro ⟨h1, _⟩
      exact hdc h1
    rw [findSub, if_neg hl, ih (fun hm => h (List.mem_cons_of_mem _ hm))]
    rfl

theorem findSub_single_app {c : Char} :
    ∀ {p : List Char} (r : List Char),
      c ∉ p → findSub [c] (p ++ c :: r) = some p.length := by
  intro p
  induction p with
  | nil =>
    intro r _
    rw [List.nil_append, findSub, if_pos (by simp [leadsWith])]
    rfl
  | cons d ds ih =>
    intro r h
    have hdc : ¬(c = d) := fun he => h (List.mem_cons.mpr (Or.inl he))
    have hl : ¬(leadsWith [c] (d :: (ds ++ c :: r)) = true) := by
      simp only [leadsWith, Bool.and_eq_true, beq_iff_eq]
      rintro ⟨h1, _⟩
      exact hdc h1
    rw [List.cons_append, findSub, if_neg hl,
      ih r (fun hm => h (List.mem_cons_of_mem _ hm))]
    rfl

theorem splitAux_of_findSub_none {sep s : List Char} {f : Nat}
    (h : findSub sep s = none) : splitAux sep (f + 1) s = [s] := by
  rw [splitAux, h]

theorem splitAux_of_findSub_some {sep s : List Char} {f i : Nat}
    (h : findSub sep s = some i) :
    splitAux sep (f + 1) s = s.take i :: splitAux sep f (s.drop (i + sep.length)) := by
  rw [splitAux, h]

/-- Splitting on a single separator character undoes joining, provided no
part contains the separator character. -/
theorem splitAux_join {c : Char} :
    ∀ (parts : List (List Char)) (fuel : Nat),
      parts ≠ [] → (∀ w ∈ parts, c ∉ w) →
      (joinSep [c] parts).length < fuel →
      splitAux [c] fuel (joinSep [c] parts) = parts := by
  intro parts
  induction parts with
  | nil => intro fuel h; exact absurd rfl h
  | cons p ps ih =>
    intro fuel _ hno hf
    cases ps with
    | nil =>
      have hj : joinSep [c] [p] = p := rfl
      rw [hj] at hf ⊢
      cases fuel with
      | zero => omega
      | succ f =>
        rw [splitAux_of_findSub_none
          (findSub_single_none (hno p (List.mem_cons_self p [])))]
    | cons q qs =>
      have hj : joinSep [c] (p :: q :: qs) = p ++ c :: joinSep [c] (q :: qs) := by
        rw [joinSep, List.append_assoc, List.singleton_append]
      rw [hj] at hf ⊢
      cases fuel with
      | zero => exact absurd hf (Nat.not_lt_zero _)
      | succ f =>
        rw [splitAux_of_findSub_some
          (findSub_single_app _ (hno p (List.mem_cons_self _ _)))]
        have ht : (p ++ c :: joinSep [c] (q :: qs)).take p.length = p :=
          List.take_left p _
        have hd : (p ++ c :: joinSep [c] (q :: qs)).drop
            (p.length + ([c] : List Char).length) = joinSep [c] (q :: qs) := by
          rw [show p ++ c :: joinSep [c] (q :: qs)
              = (p ++ [c]) ++ joinSep [c] (q :: qs) by simp]
          exact List.drop_left' (by simp)
        rw [ht, hd]
        have hrec : splitAux [c] f (joinSep [c] (q :: qs)) = q :: qs := by
          apply ih f (by simp) (fun w hw => hno w (List.mem_cons_of_mem _ hw))
          have : (p ++ c :: joinSep [c] (q :: qs)).length
              = p.length + 1 + (joinSep [c] (q :: qs)).length := by
            simp [List.length_append]
            omega
          omega
        rw [hrec]

/-- pySplit on a single separator character undoes joinSep, when no part
contains the separator. -/
theorem pySplit_joinSep {c : Char} {parts : List (List Char)}
    (hne : parts ≠ []) (hno : ∀ w ∈ parts, c ∉ w) :
    pySplit [c] (joinSep [c] parts) = parts :=
  splitAux_join parts _ hne hno (Nat.lt_succ_self _)

theorem chosenWords_length (words : List (List Char)) (draws : List Nat)
    (tIdx : Nat) (tc : Bool) :
    (chosenWords words draws tIdx tc).length = draws.length := by
  cases tc <;> simp [chosenWords]


/-- Claim C1, counterexample: with word list consisting of the single
word a, word count 2, and the two character separator aa, the generated
passphrase aaaa splits on the separator actually used into 3 segments,
not 2, although no chosen word contains the separator.  The claim as
stated is therefore false for multi-character separators. -/
theorem claim_C1_counterexample :
    2 ≤ ([0, 0] : List Nat).length ∧
    (['a', 'a'] : List Char) ≠ [] ∧
    ([['a']] : List (List Char)) ≠ [] ∧
    (∀ w ∈ chosenWords [['a']] [0, 0] 0 false,
        containsSub ['a', 'a'] w = false) ∧
    (pySplit ['a', 'a']
        (generate_passphrase [['a']] [0, 0] 0 ['a', 'a'] false)).length ≠ 2 := by
  decide

/-- Claim C1, amended: for every non-empty word list, every word count
N at least 2, and every SINGLE CHARACTER separator, the passphrase
produced by generate_passphrase contains exactly N word segments when
split on the separator actually used, provided no chosen word contains
the separator character. -/
theorem claim_C1_amended :
    ∀ (words : List (List Char)) (draws : List Nat) (tIdx : Nat) (c : Char)
      (tc : Bool),
      words ≠ [] → 2 ≤ draws.length →
      (∀ w ∈ chosenWords words draws tIdx tc, c ∉ w) →
      (pySplit [c] (generate_passphrase words draws tIdx [c] tc)).length
        = draws.length := by
  intro words draws tIdx c tc _ hn hno
  have hlen : (chosenWords words draws tIdx tc).length = draws.length :=
    chosenWords_length words draws tIdx tc
  have hne : chosenWords words draws tIdx tc ≠ [] := by
    intro h0
    have h1 := congrArg List.length h0
    rw [hlen, List.length_nil] at h1
    omega
  rw [generate_passphrase, pySplit_joinSep hne hno, hlen]

/-- Witness for the amended claim C1 at a concrete input: two words, a
hyphen separator, two draws. -/
theorem claim_C1_amended_witness :
    (pySplit ['-']
      (generate_passphrase [['a', 'l', 'p', 'h', 'a'], ['b', 'e', 't', 'a']]
        [0, 1] 0 ['-'] false)).length = 2 :=
  claim_C1_amended [['a', 'l', 'p', 'h', 'a'], ['b', 'e', 't', 'a']]
    [0, 1] 0 '-' false (by decide) (by decide) (by decide)

/-- Claim C2: every word kept by the word filter has length within the
bounds and matches the configured character class rule, and with bounds
4 and 10 the word a is rejected while the word elephant is accepted. -/
theorem claim_C2 :
    ∀ (lines : List (List Char)) (min_len max_len : Int) (al : Bool),
      1 ≤ min_len → min_len ≤ max_len →
      ((∀ w ∈ load_words_from_file lines min_len max_len al,
          min_len ≤ (w.length : Int) ∧ (w.length : Int) ≤ max_len ∧
            (if al then matchLowerApos w else matchLower w) = true) ∧
        is_reasonable_word ['a'] 4 10 al = false ∧
        is_reasonable_word ['e', 'l', 'e', 'p', 'h', 'a', 'n', 't'] 4 10 al
          = true) := by
  intro lines mi ma al _ _
  refine ⟨?_, by cases al <;> decide, by cases al <;> decide⟩
  intro w hw
  have hw1 : w ∈ loadCandidates lines mi ma al :=
    ((mem_dedupAux (loadCandidates lines mi ma al) [] w).mp hw).1
  rw [loadCandidates, List.mem_filter] at hw1
  obtain ⟨hmem, hpred⟩ := hw1
  obtain ⟨line, _, hline⟩ := List.mem_map.mp hmem
  have hfix : pyStrip w = w := by
    rw [← hline]
    exact pyStrip_pyLower_pyStrip line
  rw [is_reasonable_word] at hpred
  simp only [hfix] at hpred
  by_cases he : w.isEmpty
  · rw [if_pos he] at hpred
    exact absurd hpred (by simp)
  · rw [if_neg he] at hpred
    by_cases hb : ((w.length : Int) < mi ∨ ma < (w.length : Int))
    · rw [if_pos hb] at hpred
      exact absurd hpred (by simp)
    · rw [if_neg hb] at hpred
      rcases not_or.mp hb with ⟨h1, h2⟩
      refine ⟨by omega, by omega, ?_⟩
      cases al
      · rw [if_neg (by simp)]
        simpa using hpred
      · rw [if_pos rfl]
        simpa using hpred

/-- Witness for claim C2 at a concrete input: the single line elephant
with bounds 4 and 10 and apostrophes disallowed. -/
theorem claim_C2_witness :
    (4 : Int) ≤ (((['e', 'l', 'e', 'p', 'h', 'a', 'n', 't'] : List Char).length : Nat) : Int) ∧
    ((((['e', 'l', 'e', 'p', 'h', 'a', 'n', 't'] : List Char).length : Nat)) : Int) ≤ 10 ∧
    (if false then matchLowerApos ['e', 'l', 'e', 'p', 'h', 'a', 'n', 't']
     else matchLower ['e', 'l', 'e', 'p', 'h', 'a', 'n', 't']) = true :=
  (claim_C2 [['e', 'l', 'e', 'p', 'h', 'a', 'n', 't']] 4 10 false
    (by decide) (by decide)).1 ['e', 'l', 'e', 'p', 'h', 'a', 'n', 't']
    (by decide)

/-- Claim C3: the deduplicated word list has no repeated entries, keeps
exactly the words of the input, orders them by first occurrence in the
input, and both load_words_from_file and parse_eff_wordlist produce their
result by this deduplication of their candidate words. -/
theorem claim_C3 :
    ∀ (ws : List (List Char)),
      (dedupFirst ws).Nodup ∧
      (∀ x, x ∈ dedupFirst ws ↔ x ∈ ws) ∧
      (dedupFirst ws).Pairwise (fun u v => firstIdx u ws < firstIdx v ws) ∧
      (∀ (lines : List (List Char)) (mi ma : Int) (al : Bool),
          load_words_from_file lines mi ma al
            = dedupFirst (loadCandidates lines mi ma al)) ∧
      (∀ (lines : List (List Char)) (mi ma : Int) (al : Bool),
          parse_eff_wordlist lines mi ma al
            = dedupFirst (effCandidates lines mi ma al)) := by
  intro ws
  refine ⟨nodup_dedupAux ws [], ?_, pairwise_dedupAux ws [],
    fun _ _ _ _ => rfl, fun _ _ _ _ => rfl⟩
  intro x
  rw [dedupFirst, mem_dedupAux]
  simp

/-- Witness for claim C3 at a concrete input with a duplicate. -/
theorem claim_C3_witness :
    (dedupFirst [['a'], ['b'], ['a']]).Nodup :=
  (claim_C3 [['a'], ['b'], ['a']]).1

theorem getD_map_of_lt (f : Nat → List Char) (draws : List Nat) (i : Nat)
    (h : i < draws.length) :
    (draws.map f).getD i [] = f (draws.getD i 0) := by
  simp only [List.getD_eq_getElem?_getD, List.getElem?_map]
  rw [List.getElem?_eq_getElem h]
  rfl

theorem getD_set_ne_thm {α : Type} {l : List α} {i j : Nat} {x d : α}
    (h : i ≠ j) : (l.set i x).getD j d = l.getD j d := by
  simp only [List.getD_eq_getElem?_getD, List.getElem?_set_ne h]

theorem getD_set_self_thm {α : Type} {l : List α} {i : Nat} {x d : α}
    (h : i < l.length) : (l.set i x).getD i d = x := by
  simp only [List.getD_eq_getElem?_getD, List.getElem?_set_self h]
  rfl

theorem getD_mem_of_lt {α : Type} {l : List α} {i : Nat} {d : α}
    (h : i < l.length) : l.getD i d ∈ l := by
  simp only [List.getD_eq_getElem?_getD]
  rw [List.getElem?_eq_getElem h]
  exact List.getElem_mem h

/-- The Python str.capitalize method changes every nonempty all-lowercase
word: the first letter moves out of the range a-z. -/
theorem pyCapitalize_ne {w : List Char} (h : matchLower w = true) :
    pyCapitalize w ≠ w := by
  cases w with
  | nil => simp [matchLower] at h
  | cons c cs =>
    have hc : isLowerAZ c = true := by
      simp only [matchLower, Bool.and_eq_true, List.all_cons] at h
      exact h.2.1
    intro he
    rw [pyCapitalize] at he
    injection he with h1 _
    have h2 : (Char.toUpper c).toNat = c.toNat := congrArg Char.toNat h1
    rw [toUpper_toNat] at h2
    simp only [isLowerAZ, decide_eq_true_eq] at hc
    rw [if_pos hc] at h2
    omega

/-- Claim C4, counterexample: with the titlecase transform enabled on the
word list alpha, beta, with draws at indices 0 and 1 and the random
position 0, the transform produces Alpha, beta: no word is fully
uppercased, contradicting the claim that at least one of the N words is
fully uppercased. -/
theorem claim_C4_counterexample :
    chosenWords [['a', 'l', 'p', 'h', 'a'], ['b', 'e', 't', 'a']] [0, 1] 0 true
        = [['A', 'l', 'p', 'h', 'a'], ['b', 'e', 't', 'a']] ∧
    (chosenWords [['a', 'l', 'p', 'h', 'a'], ['b', 'e', 't', 'a']] [0, 1] 0
        true).countP (fun w => isAllUpper w) = 0 := by
  decide

/-- Claim C4, amended: when the titlecase transform is enabled, the
assembler picks a single random position among the N word positions and
applies str.capitalize to the word there (first letter uppercased, the
rest lowercased); every other position is unchanged, and for all-lowercase
words the transformed word differs from the original, so exactly one word
is transformed per run. -/
theorem claim_C4_amended :
    ∀ (words : List (List Char)) (draws : List Nat) (tIdx : Nat),
      tIdx < draws.length →
      (∀ w ∈ words, matchLower w = true) →
      (∀ i ∈ draws, i < words.length) →
      (chosenWords words draws tIdx true).length = draws.length ∧
      (∀ j, j ≠ tIdx →
        (chosenWords words draws tIdx true).getD j []
          = (chosenWords words draws tIdx false).getD j []) ∧
      (chosenWords words draws tIdx true).getD tIdx []
        = pyCapitalize ((chosenWords words draws tIdx false).getD tIdx []) ∧
      (chosenWords words draws tIdx true).getD tIdx []
        ≠ (chosenWords words draws tIdx false).getD tIdx [] := by
  intro words draws tIdx ht hlow hdr
  have hraw : chosenWords words draws tIdx false
      = draws.map (fun i => words.getD i []) := by
    simp [chosenWords]
  have htw : chosenWords words draws tIdx true
      = (draws.map (fun i => words.getD i [])).set tIdx
          (pyCapitalize ((draws.map (fun i => words.getD i [])).getD tIdx [])) := by
    simp [chosenWords]
  have hlt : tIdx < (draws.map (fun i => words.getD i [])).length := by
    rw [List.length_map]
    exact ht
  refine ⟨chosenWords_length _ _ _ _, ?_, ?_, ?_⟩
  · intro j hj
    rw [htw, hraw, getD_set_ne_thm (fun he => hj he.symm)]
  · rw [htw, hraw, getD_set_self_thm hlt]
  · rw [htw, hraw, getD_set_self_thm hlt]
    apply pyCapitalize_ne
    rw [getD_map_of_lt _ _ _ ht]
    exact hlow _ (getD_mem_of_lt (hdr _ (getD_mem_of_lt ht)))

/-- Witness for the amended claim C4 at a concrete input. -/
theorem claim_C4_amended_witness :
    (chosenWords [['a', 'l', 'p', 'h', 'a'], ['b', 'e', 't', 'a']] [0, 1] 0
        true).getD 0 []
      ≠ (chosenWords [['a', 'l', 'p', 'h', 'a'], ['b', 'e', 't', 'a']] [0, 1]
        0 false).getD 0 [] :=
  (claim_C4_amended [['a', 'l', 'p', 'h', 'a'], ['b', 'e', 't', 'a']] [0, 1] 0
    (by decide) (by decide) (by decide)).2.2.2

/-- Claim C5, counterexample: with both an explicit wordlist path (whose
file exists) and the remote-list option supplied, the resolver draws from
the EFF source, not from the explicit file: the remote option takes
priority, contrary to the claim. -/
theorem claim_C5_counterexample :
    wordlistTruthy c5cfg.wordlist = true ∧
    c5cfg.download_eff = true ∧
    resolveSource c5cfg c5env ≠ Source.file ∧
    resolveSource c5cfg c5env = Source.eff ∧
    (resolveWords c5cfg c5env).1
      = Except.ok (parse_eff_wordlist c5env.effLines 4 10 false) := by
  decide

/-- Claim C5, amended: the resolver draws raw candidate words from exactly
one source, tried in the fixed priority order: (1) the remote EFF list
when requested, (2) an explicitly supplied (truthy) wordlist file path,
(3) the first existing conventional system dictionary, (4) the built-in
fallback list; when both an explicit wordlist path and the remote-list
option are supplied, the remote-list option takes priority. -/
theorem claim_C5_amended :
    ∀ (cfg : Config) (env : Env),
      (cfg.download_eff = true → resolveSource cfg env = Source.eff) ∧
      (cfg.download_eff = false → wordlistTruthy cfg.wordlist = true →
        resolveSource cfg env = Source.file) ∧
      (cfg.download_eff = false → wordlistTruthy cfg.wordlist = false →
        (find_default_wordlist env).isSome = true →
        resolveSource cfg env = Source.sysdict) ∧
      (cfg.download_eff = false → wordlistTruthy cfg.wordlist = false →
        (find_default_wordlist env).isSome = false →
        resolveSource cfg env = Source.fallback) ∧
      (resolveSource cfg env = Source.eff →
        (resolveWords cfg env).1 =
          (if env.effCached || env.effFetchOk then
            Except.ok (parse_eff_wordlist env.effLines cfg.min_len
              cfg.max_len cfg.allow_apostrophe)
          else Except.error ResolveErr.fetchFailed)) ∧
      (resolveSource cfg env = Source.file →
        (resolveWords cfg env).1 =
          (if env.wordlistFileExists then
            Except.ok (load_words_from_file env.wordlistLines cfg.min_len
              cfg.max_len cfg.allow_apostrophe)
          else Except.error ResolveErr.fileNotFound)) ∧
      (resolveSource cfg env = Source.sysdict →
        (resolveWords cfg env).1 =
          Except.ok (load_words_from_file ((find_default_wordlist env).getD [])
            cfg.min_len cfg.max_len cfg.allow_apostrophe)) ∧
      (resolveSource cfg env = Source.fallback →
        (resolveWords cfg env).1 =
          Except.ok (FALLBACK_WORDS.filter (fun w =>
            is_reasonable_word w cfg.min_len cfg.max_len
              cfg.allow_apostrophe))) := by
  intro cfg env
  cases hde : cfg.download_eff <;>
    cases hwt : wordlistTruthy cfg.wordlist <;>
      cases hfd : find_default_wordlist env <;>
        cases hec : env.effCached <;>
          cases hef : env.effFetchOk <;>
            cases hwe : env.wordlistFileExists <;>
              simp [resolveSource, resolveWords, hde, hwt, hfd, hec, hef, hwe]

/-- Witness for the amended claim C5 at a concrete input: the download
option set forces the EFF source. -/
theorem claim_C5_amended_witness :
    resolveSource c5cfg c5env = Source.eff :=
  (claim_C5_amended c5cfg c5env).1 (by decide)

/-- Claim C6, counterexample: with no fixed separator and an empty
separator set, choose_separator returns a hyphen, which is not one of the
characters of the (empty) configured separator set, so the claim as
stated fails for the empty separator set. -/
theorem claim_C6_counterexample :
    choose_separator none [] 0 = ['-'] ∧
    ¬∃ c, c ∈ ([] : List Char) ∧ choose_separator none [] 0 = [c] := by
  constructor
  · rfl
  · rintro ⟨c, hc, _⟩
    exact absurd hc (List.not_mem_nil c)

/-- Claim C6, amended: a configured fixed separator is used verbatim for
every passphrase; otherwise, when the configured separator set is
nonempty, each passphrase uses one character drawn from the set (an empty
set falls back to a hyphen, see claim C10). -/
theorem claim_C6_amended :
    (∀ (s : List Char) (sep_set : List Char) (k : Nat),
        choose_separator (some s) sep_set k = s) ∧
    (∀ (sep_set : List Char) (k : Nat), sep_set ≠ [] →
        ∃ c, c ∈ sep_set ∧ choose_separator none sep_set k = [c]) := by
  constructor
  · intro s st k
    rfl
  · intro st k hne
    have hie : st.isEmpty = false := by
      cases st with
      | nil => exact absurd rfl hne
      | cons a l => rfl
    refine ⟨st.getD (k % st.length) '-', ?_, ?_⟩
    · apply getD_mem_of_lt
      apply Nat.mod_lt
      cases st with
      | nil => exact absurd rfl hne
      | cons a l => simp
    · simp [choose_separator, hie]

/-- Witness for the amended claim C6 at a concrete input. -/
theorem claim_C6_amended_witness :
    ∃ c, c ∈ (['-', '_'] : List Char) ∧
      choose_separator none ['-', '_'] 3 = [c] :=
  claim_C6_amended.2 ['-', '_'] 3 (by decide)

/-- Claim C9: the EFF acquisition step opens a request only when no
cached copy exists, makes at most one request attempt, and writes the
cache file only after the whole response body was read successfully; on a
failed fetch no file write happens at all. -/
theorem claim_C9 :
    ∀ (cached openOk readOk : Bool),
      (cached = true → (effAcquireTrace cached openOk readOk).1 = []) ∧
      ((effAcquireTrace cached openOk readOk).1.count EffEv.rqOpen ≤ 1) ∧
      ((effAcquireTrace cached openOk readOk).2 = false →
        EffEv.fileWrite ∉ (effAcquireTrace cached openOk readOk).1) ∧
      (EffEv.fileWrite ∈ (effAcquireTrace cached openOk readOk).1 →
        openOk = true ∧ readOk = true ∧ cached = false) ∧
      ((effAcquireTrace cached openOk readOk).2
        = (cached || (openOk && readOk))) := by
  decide

/-- Witness for claim C9 at a concrete input: a failed body read leaves
no file write in the trace. -/
theorem claim_C9_witness :
    EffEv.fileWrite ∉ (effAcquireTrace false true false).1 :=
  (claim_C9 false true false).2.2.1 (by decide)

/-- Claim C10: with no fixed separator configured and an empty separator
set, choose_separator returns the hyphen rather than failing, for every
random draw. -/
theorem claim_C10 : ∀ k : Nat, choose_separator none [] k = ['-'] := by
  intro k
  rfl

theorem resolveWords_fetchFailed_iff (cfg : Config) (env : Env) :
    (resolveWords cfg env).1 = Except.error ResolveErr.fetchFailed ↔
      (cfg.download_eff = true ∧ env.effCached = false ∧
        env.effFetchOk = false) := by
  cases hde : cfg.download_eff <;>
    cases hwt : wordlistTruthy cfg.wordlist <;>
      cases hfd : find_default_wordlist env <;>
        cases hec : env.effCached <;>
          cases hef : env.effFetchOk <;>
            cases hwe : env.wordlistFileExists <;>
              simp [resolveWords, hde, hwt, hfd, hec, hef, hwe]

theorem resolveWords_fileNotFound_iff (cfg : Config) (env : Env) :
    (resolveWords cfg env).1 = Except.error ResolveErr.fileNotFound ↔
      (cfg.download_eff = false ∧ wordlistTruthy cfg.wordlist = true ∧
        env.wordlistFileExists = false) := by
  cases hde : cfg.download_eff <;>
    cases hwt : wordlistTruthy cfg.wordlist <;>
      cases hfd : find_default_wordlist env <;>
        cases hec : env.effCached <;>
          cases hef : env.effFetchOk <;>
            cases hwe : env.wordlistFileExists <;>
              simp [resolveWords, hde, hwt, hfd, hec, hef, hwe]

/-- Claim C7, counterexample: a numerically valid configuration with the
download option, no cache and no network exits with a nonzero status even
though none of the invalid-configuration conditions listed by the claim
holds, so the listed conditions are not exhaustive. -/
theorem claim_C7_counterexample :
    (mainRun c7cfg c7env (fun _ => 0) (fun _ _ => 0) (fun _ => 0)).exit ≠ 0 ∧
    ¬(c7cfg.words < 2) ∧ ¬(c7cfg.count < 1) ∧ ¬(c7cfg.min_len < 1) ∧
    ¬(c7cfg.max_len < c7cfg.min_len) ∧
    c7cfg.wordlist = none ∧
    (resolveWords c7cfg c7env).1 ≠ Except.ok [] := by
  decide

/-- Claim C7, amended: the program exits with a nonzero status (and a
diagnostic message) exactly when the word count is below 2, the
passphrase count is below 1, the length bounds are invalid, an explicitly
supplied wordlist file is missing while the remote option is not
selected, the EFF download fails (remote option selected, no cache, fetch
failure), or the filtered word list is empty; otherwise it exits zero
after printing exactly one passphrase line per requested passphrase. -/
theorem claim_C7_amended :
    ∀ (cfg : Config) (env : Env) (rs : Nat → Nat) (rd : Nat → Nat → Nat)
      (rt : Nat → Nat),
      ((mainRun cfg env rs rd rt).exit ≠ 0 ↔
        (cfg.words < 2 ∨ cfg.count < 1 ∨ cfg.min_len < 1 ∨
          cfg.max_len < cfg.min_len ∨
          (cfg.download_eff = false ∧ wordlistTruthy cfg.wordlist = true ∧
            env.wordlistFileExists = false) ∨
          (cfg.download_eff = true ∧ env.effCached = false ∧
            env.effFetchOk = false) ∨
          (resolveWords cfg env).1 = Except.ok [])) ∧
      ((mainRun cfg env rs rd rt).exit ≠ 0 →
        (mainRun cfg env rs rd rt).err ≠ []) ∧
      ((mainRun cfg env rs rd rt).exit = 0 →
        (mainRun cfg env rs rd rt).out.length = cfg.count.toNat) := by
  intro cfg env rs rd rt
  by_cases h1 : cfg.words < 2
  · have hm : mainRun cfg env rs rd rt = ⟨2, [], [Msg.errWords]⟩ := by
      simp only [mainRun, if_pos h1]
    rw [hm]
    exact ⟨⟨fun _ => Or.inl h1, fun _ => by decide⟩, fun _ => by simp,
      fun h0 => absurd h0 (by decide)⟩
  by_cases h2 : cfg.count < 1
  · have hm : mainRun cfg env rs rd rt = ⟨2, [], [Msg.errCount]⟩ := by
      simp only [mainRun, if_neg h1, if_pos h2]
    rw [hm]
    exact ⟨⟨fun _ => Or.inr (Or.inl h2), fun _ => by decide⟩, fun _ => by simp,
      fun h0 => absurd h0 (by decide)⟩
  by_cases h3 : (cfg.min_len < 1 ∨ cfg.max_len < cfg.min_len)
  · have hm : mainRun cfg env rs rd rt = ⟨2, [], [Msg.errLen]⟩ := by
      simp only [mainRun, if_neg h1, if_neg h2, if_pos h3]
    rw [hm]
    refine ⟨⟨fun _ => ?_, fun _ => by decide⟩, fun _ => by simp,
      fun h0 => absurd h0 (by decide)⟩
    rcases h3 with h3 | h3
    · exact Or.inr (Or.inr (Or.inl h3))
    · exact Or.inr (Or.inr (Or.inr (Or.inl h3)))
  rcases hres : resolveWords cfg env with ⟨exc, msgs⟩
  cases exc with
  | error e =>
    cases e with
    | fetchFailed =>
      have hm : mainRun cfg env rs rd rt = ⟨1, [], msgs ++ [Msg.netTraceback]⟩ := by
        simp only [mainRun, if_neg h1, if_neg h2, if_neg h3, hres]
      have hp1 : (resolveWords cfg env).1 = Except.error ResolveErr.fetchFailed := by
        rw [hres]
      rw [hm]
      refine ⟨⟨fun _ => ?_, fun _ => by simp⟩, fun _ => by simp,
        fun h0 => by simp at h0⟩
      exact Or.inr (Or.inr (Or.inr (Or.inr (Or.inr (Or.inl
        ((resolveWords_fetchFailed_iff cfg env).mp hp1))))))
    | fileNotFound =>
      have hm : mainRun cfg env rs rd rt
          = ⟨2, [], msgs ++ [Msg.errWordlistNotFound]⟩ := by
        simp only [mainRun, if_neg h1, if_neg h2, if_neg h3, hres]
      have hp1 : (resolveWords cfg env).1 = Except.error ResolveErr.fileNotFound := by
        rw [hres]
      rw [hm]
      refine ⟨⟨fun _ => ?_, fun _ => by simp⟩, fun _ => by simp,
        fun h0 => by simp at h0⟩
      exact Or.inr (Or.inr (Or.inr (Or.inr (Or.inl
        ((resolveWords_fileNotFound_iff cfg env).mp hp1)))))
  | ok ws =>
    have hp1 : (resolveWords cfg env).1 = Except.ok ws := by rw [hres]
    by_cases hemp : ws.isEmpty
    · have hws : ws = [] := by
        cases ws with
        | nil => rfl
        | cons a l => exact absurd hemp (by simp)
      have hm : mainRun cfg env rs rd rt
          = ⟨2, [],
              msgs ++ (if ws.length < 1000 then [Msg.warnSmall ws.length]
                else []) ++ [Msg.errNoWords]⟩ := by
        simp only [mainRun, if_neg h1, if_neg h2, if_neg h3, hres, if_pos hemp]
      rw [hm]
      refine ⟨⟨fun _ => ?_, fun _ => by simp⟩, fun _ => by simp,
        fun h0 => by simp at h0⟩
      refine Or.inr (Or.inr (Or.inr (Or.inr (Or.inr (Or.inr ?_)))))
      rw [hws]
    · have hm : mainRun cfg env rs rd rt
          = ⟨0,
              (List.range cfg.count.toNat).map (fun i =>
                generate_passphrase ws (genDraws cfg.words.toNat ws.length rd i)
                  (rt i % cfg.words.toNat)
                  (choose_separator cfg.sep cfg.sep_set (rs i)) cfg.titlecase),
              msgs ++ (if ws.length < 1000 then [Msg.warnSmall ws.length]
                else [])⟩ := by
        simp only [mainRun, if_neg h1, if_neg h2, if_neg h3, hres, if_neg hemp]
      rw [hm]
      refine ⟨⟨fun h0 => absurd rfl h0, fun hdis => ?_⟩,
        fun h0 => absurd rfl h0, fun _ => by simp⟩
      exfalso
      rcases hdis with h | h | h | h | h | h | h
      · exact h1 h
      · exact h2 h
      · exact h3 (Or.inl h)
      · exact h3 (Or.inr h)
      · have := (resolveWords_fileNotFound_iff cfg env).mpr h
        rw [hp1] at this
        exact Except.noConfusion this
      · have := (resolveWords_fetchFailed_iff cfg env).mpr h
        rw [hp1] at this
        exact Except.noConfusion this
      · have hws : ws = [] := by
          have h2 : (Except.ok ws : Except ResolveErr (List (List Char))) = Except.ok [] := h
          injection h2
        rw [hws] at hemp
        exact hemp rfl

/-- Witness for the amended claim C7 at a concrete input: a valid
configuration prints exactly count passphrases. -/
theorem claim_C7_amended_witness :
    (mainRun c7wcfg c7wenv (fun _ => 0) (fun _ _ => 0) (fun _ => 0)).out.length
      = c7wcfg.count.toNat :=
  (claim_C7_amended c7wcfg c7wenv (fun _ => 0) (fun _ _ => 0)
    (fun _ => 0)).2.2 (by decide)

/-- Claim C8: once the numeric configuration checks pass and a word list
was resolved, an empty filtered word list is fatal (exit code 2, an error
reported, no passphrases printed), while a nonempty filtered list smaller
than the 1000 word warning threshold only causes a warning on the
diagnostic stream and generation still proceeds (exit code zero, one
passphrase per requested count). -/
theorem claim_C8 :
    ∀ (cfg : Config) (env : Env) (rs : Nat → Nat) (rd : Nat → Nat → Nat)
      (rt : Nat → Nat) (ws : List (List Char)) (msgs : List Msg),
      ¬cfg.words < 2 → ¬cfg.count < 1 →
      ¬(cfg.min_len < 1 ∨ cfg.max_len < cfg.min_len) →
      resolveWords cfg env = (Except.ok ws, msgs) →
      ((ws = [] →
          (mainRun cfg env rs rd rt).exit = 2 ∧
          (mainRun cfg env rs rd rt).out = [] ∧
          Msg.errNoWords ∈ (mainRun cfg env rs rd rt).err) ∧
        (ws ≠ [] → ws.length < 1000 →
          Msg.warnSmall ws.length ∈ (mainRun cfg env rs rd rt).err ∧
          (mainRun cfg env rs rd rt).exit = 0 ∧
          (mainRun cfg env rs rd rt).out.length = cfg.count.toNat)) := by
  intro cfg env rs rd rt ws msgs h1 h2 h3 hres
  constructor
  · intro hws
    subst hws
    have hm : mainRun cfg env rs rd rt
        = ⟨2, [], msgs ++ [Msg.warnSmall 0] ++ [Msg.errNoWords]⟩ := by
      simp only [mainRun, if_neg h1, if_neg h2, if_neg h3, hres]
      norm_num
    rw [hm]
    refine ⟨rfl, rfl, ?_⟩
    simp
  · intro hws hsmall
    have hemp : ws.isEmpty = false := by
      cases ws with
      | nil => exact absurd rfl hws
      | cons a l => rfl
    have hm : mainRun cfg env rs rd rt
        = ⟨0,
            (List.range cfg.count.toNat).map (fun i =>
              generate_passphrase ws (genDraws cfg.words.toNat ws.length rd i)
                (rt i % cfg.words.toNat)
                (choose_separator cfg.sep cfg.sep_set (rs i)) cfg.titlecase),
            msgs ++ [Msg.warnSmall ws.length]⟩ := by
      simp only [mainRun, if_neg h1, if_neg h2, if_neg h3, hres,
        Bool.not_eq_true, hemp, if_pos hsmall]
      simp [hemp]
    rw [hm]
    refine ⟨by simp, rfl, by simp⟩

/-- Witness for claim C8 at a concrete input: a one word list produces
the small list warning and one passphrase. -/
theorem claim_C8_witness :
    Msg.warnSmall 1 ∈ (mainRun c8cfg c8env (fun _ => 0) (fun _ _ => 0)
      (fun _ => 0)).err ∧
    (mainRun c8cfg c8env (fun _ => 0) (fun _ _ => 0) (fun _ => 0)).exit = 0 ∧
    (mainRun c8cfg c8env (fun _ => 0) (fun _ _ => 0) (fun _ => 0)).out.length
      = c8cfg.count.toNat :=
  (claim_C8 c8cfg c8env (fun _ => 0) (fun _ _ => 0) (fun _ => 0)
    [['a', 'p', 'p', 'l', 'e']] [] (by decide) (by decide) (by decide)
    (by decide)).2 (by decide) (by decide)


end PassGen
